import Mathlib

/-!
Verification of the futures-analysis-reports analytical core.

Shallow embedding of the indicator / pattern / support-resistance / trend
pipeline (`indicators.py`, `pattern_recognizer.py`, `support_resistance.py`,
`trend_analyzer.py`).  Price values (Python floats) are modelled as rationals;
pandas missing values (NaN) are modelled as `Option`; Python exceptions are
modelled with `Except`.  Definitions follow the source code; definitions whose
name contains `raw` or `spec` follow the specification text and are compared
with the source translations in the theorems.
-/

/-- One OHLCV price bar (a row of the pandas DataFrame).  `open_` is the
Python column `open` (a Lean keyword). -/
structure Bar where
  open_ : ℚ
  high : ℚ
  low : ℚ
  close : ℚ
deriving DecidableEq, Repr

/-- The `high` of bar `j` (`df.iloc[j]['high']`); out-of-range reads (which the
source never performs) default to 0. -/
def highAt (df : List Bar) (j : ℕ) : ℚ := ((df.get? j).map Bar.high).getD 0

/-- The `low` of bar `j` (`df.iloc[j]['low']`). -/
def lowAt (df : List Bar) (j : ℕ) : ℚ := ((df.get? j).map Bar.low).getD 0

/-- The `close` of bar `j` (`df.iloc[j]['close']`). -/
def closeAt (df : List Bar) (j : ℕ) : ℚ := ((df.get? j).map Bar.close).getD 0

/-- Python `sorted(xs, reverse=True)` on rationals (descending sort; on a
total order every sorting algorithm returns the same list). -/
def sortDesc (xs : List ℚ) : List ℚ := xs.insertionSort (fun a b => b ≤ a)

namespace SupportResistanceAnalyzer

/-- Inner loop of `_merge_levels`: scan the already-merged buckets and fold
`level` into the first bucket within relative tolerance (replacing the bucket
by the arithmetic mean), else append `level` at the end.  Mirrors the
`for i, existing in enumerate(merged)` loop with its `break`, and the
`merged.append(level)` fallback. -/
def mergeInto (tol : ℚ) (merged : List ℚ) (level : ℚ) : List ℚ :=
  match merged with
  | [] => [level]
  | existing :: rest =>
    if |level - existing| / ((level + existing) / 2) < tol then
      ((existing + level) / 2) :: rest
    else
      existing :: mergeInto tol rest level

/-- `SupportResistanceAnalyzer._merge_levels` (support_resistance.py:80-107):
sort descending, greedily merge each level into the first near bucket,
resort descending. -/
def merge_levels (tol : ℚ) (levels : List ℚ) : List ℚ :=
  match levels with
  | [] => []
  | _ => sortDesc ((sortDesc levels).foldl (mergeInto tol) [])

/-- The `is_peak` test of `find_pivot_points`: no other bar in the symmetric
window `[i-window, i+window]` has a `high` `>=` the current high. -/
def isPeak (window : ℕ) (df : List Bar) (i : ℕ) : Bool :=
  (List.range' (i - window) (2 * window + 1)).all
    (fun j => j == i || decide (highAt df j < highAt df i))

/-- The `is_trough` test of `find_pivot_points`: no other bar in the window
has a `low` `<=` the current low. -/
def isTrough (window : ℕ) (df : List Bar) (i : ℕ) : Bool :=
  (List.range' (i - window) (2 * window + 1)).all
    (fun j => j == i || decide (lowAt df i < lowAt df j))

/-- `SupportResistanceAnalyzer.find_pivot_points` (support_resistance.py:29-78):
returns `([], [])` for fewer than `2*window` bars; otherwise collects the highs
of peak bars and lows of trough bars for `window <= i < len - window` and
passes both lists through `_merge_levels`. -/
def find_pivot_points (window : ℕ) (tol : ℚ) (df : List Bar) :
    List ℚ × List ℚ :=
  if df.length < window * 2 then ([], [])
  else
    let idxs := List.range' window (df.length - window - window)
    let resistance_levels := (idxs.filter (isPeak window df)).map (highAt df)
    let support_levels := (idxs.filter (isTrough window df)).map (lowAt df)
    (merge_levels tol resistance_levels, merge_levels tol support_levels)

/-- Modelled from the spec text of `findPivots`: the raw (unmerged) resistance
pivot prices — highs of exactly those indices `window <= i < len - window`
whose high is strictly greater than every other high in the symmetric
`2*window+1`-bar neighborhood. -/
def rawResistance (window : ℕ) (df : List Bar) : List ℚ :=
  ((List.range' window (df.length - window - window)).filter
    (fun i => decide (∀ j ∈ Finset.Icc (i - window) (i + window),
      j ≠ i → highAt df j < highAt df i))).map (highAt df)

/-- Modelled from the spec text of `findPivots`: the raw (unmerged) support
pivot prices (strict minima of `low`). -/
def rawSupport (window : ℕ) (df : List Bar) : List ℚ :=
  ((List.range' window (df.length - window - window)).filter
    (fun i => decide (∀ j ∈ Finset.Icc (i - window) (i + window),
      j ≠ i → lowAt df i < lowAt df j))).map (lowAt df)

end SupportResistanceAnalyzer

/-- A constant-width bar used for the pivot counterexample: only the high
matters (lows are all equal, so no support pivots arise). -/
def cBar (h : ℚ) : Bar := ⟨0, h, 0, 0⟩

/-- A 62-bar series whose highs are 1 everywhere except strict local maxima
100 at index 20 and 100.2 at index 41; with window 20 both indices are strict
maxima of their symmetric 41-bar neighborhoods, and the two pivot prices are
within 0.5% relative distance of each other. -/
def df62 : List Bar :=
  (List.range 62).map
    (fun i => cBar (if i = 20 then 100 else if i = 41 then 501 / 5 else 1))

namespace TechnicalIndicators

/-- The pandas rolling window of width `n` ending at index `i` (the last
`min(i+1, n)` observations). -/
def rollingWindow (n : ℕ) (xs : List ℚ) (i : ℕ) : List ℚ :=
  (xs.take (i + 1)).drop (i + 1 - n)

/-- pandas `rolling(window=n, min_periods=minp).mean()`: the mean of the
window where at least `minp` observations exist, else missing. -/
def rollingMeanMP (n minp : ℕ) (xs : List ℚ) : List (Option ℚ) :=
  (List.range xs.length).map (fun i =>
    let w := rollingWindow n xs i
    if w.length < minp then none else some (w.sum / (w.length : ℚ)))

/-- pandas `rolling(window=n, min_periods=1).mean()` as a total function
(the window is never empty for in-range indices when `n ≥ 1`). -/
def rollingMean1 (n : ℕ) (xs : List ℚ) : List ℚ :=
  (List.range xs.length).map (fun i =>
    let w := rollingWindow n xs i
    w.sum / (w.length : ℚ))

/-- Recursion of pandas `ewm(alpha, adjust=False).mean()` after the seed:
`y_t = (1 - alpha) * y_(t-1) + alpha * x_t`. -/
def ewmAdjFalseGo (α prev : ℚ) : List ℚ → List ℚ
  | [] => []
  | x :: xs =>
    let y := (1 - α) * prev + α * x
    y :: ewmAdjFalseGo α y xs

/-- pandas `ewm(alpha, adjust=False).mean()`: seeded with the first
observation, then the recursive exponential smoothing. -/
def ewmAdjFalse (α : ℚ) : List ℚ → List ℚ
  | [] => []
  | x :: xs => x :: ewmAdjFalseGo α x xs

/-- Recursion of pandas `ewm(alpha, adjust=True).mean()` carrying the
weighted numerator and the weight sum. -/
def ewmAdjTrueGo (α num den : ℚ) : List ℚ → List ℚ
  | [] => []
  | x :: xs =>
    let num2 := (1 - α) * num + x
    let den2 := (1 - α) * den + 1
    (num2 / den2) :: ewmAdjTrueGo α num2 den2 xs

/-- pandas `ewm(com, adjust=True).mean()` with `alpha = 1/(1+com)`: the
bias-corrected weighted mean with weights `(1-alpha)^k`. -/
def ewmAdjTrue (α : ℚ) (xs : List ℚ) : List ℚ := ewmAdjTrueGo α 0 0 xs

/-- `TechnicalIndicators.ma` (indicators.py:27-39): simple rolling mean. -/
def ma (close : List ℚ) (n minp : ℕ) : List (Option ℚ) := rollingMeanMP n minp close

/-- `TechnicalIndicators.ema` (indicators.py:42-53): `ewm(span=n,
adjust=False)`, i.e. `alpha = 2/(n+1)`. -/
def ema (close : List ℚ) (n : ℕ) : List ℚ := ewmAdjFalse (2 / ((n : ℚ) + 1)) close

/-- `TechnicalIndicators.macd` (indicators.py:56-76): returns
`(dif, dea, macd_hist)`. -/
def macd (close : List ℚ) (fast slow signal : ℕ) : List ℚ × List ℚ × List ℚ :=
  let dif := List.zipWith (fun a b => a - b) (ema close fast) (ema close slow)
  let dea := ewmAdjFalse (2 / ((signal : ℚ) + 1)) dif
  let hist := List.zipWith (fun a b => a - b) dif dea
  (dif, dea, hist)

/-- The `gain` series of `rsi`: `delta.where(delta > 0, 0)` over
`close.diff()`; the first delta is missing, and pandas `where` turns it
into 0 because `NaN > 0` is false. -/
def gains (close : List ℚ) : List ℚ :=
  match close with
  | [] => []
  | c :: rest => 0 :: List.zipWith (fun prev curr => max (curr - prev) 0) (c :: rest) rest

/-- The `loss` series of `rsi`: `-delta.where(delta < 0, 0)` (stored as a
positive magnitude). -/
def losses (close : List ℚ) : List ℚ :=
  match close with
  | [] => []
  | c :: rest => 0 :: List.zipWith (fun prev curr => max (prev - curr) 0) (c :: rest) rest

/-- The smoothed average gain/loss pair of `rsi` per method (indicators.py:
95-105): `ema` uses `ewm(alpha=1/n, adjust=False)`, `sma` a rolling mean with
`min_periods=1`, `china` `ewm(com=n-1, adjust=True)` (so `alpha = 1/n`);
any other method name is rejected (`None` here, a `ValueError` in `rsi`). -/
def rsiAvgs (close : List ℚ) (n : ℕ) : String → Option (List ℚ × List ℚ)
  | "ema" =>
    some (ewmAdjFalse (1 / (n : ℚ)) (gains close), ewmAdjFalse (1 / (n : ℚ)) (losses close))
  | "sma" => some (rollingMean1 n (gains close), rollingMean1 n (losses close))
  | "china" =>
    some (ewmAdjTrue (1 / (n : ℚ)) (gains close), ewmAdjTrue (1 / (n : ℚ)) (losses close))
  | _ => none

/-- The final step of `rsi`: `rs = avg_gain / avg_loss.replace(0, nan)` and
`rsi = 100 - 100/(1+rs)`; a zero average loss gives a missing value, never
infinity. -/
def rsiFromAvgs (ag al : List ℚ) : List (Option ℚ) :=
  List.zipWith (fun g l => if l = 0 then none else some (100 - 100 / (1 + g / l))) ag al

/-- `TechnicalIndicators.rsi` (indicators.py:79-109). -/
def rsi (close : List ℚ) (n : ℕ) (method : String) : Except String (List (Option ℚ)) :=
  match rsiAvgs close n method with
  | none => .error ("不支持的RSI计算方法: " ++ method)
  | some (ag, al) => .ok (rsiFromAvgs ag al)

/-- The sample variance (pandas `ddof=1`) of a window. -/
def sampleVar (w : List ℚ) : ℚ :=
  let m := w.sum / (w.length : ℚ)
  ((w.map (fun x => (x - m) ^ 2)).sum) / ((w.length : ℚ) - 1)

/-- pandas `rolling(window=n, min_periods=minp).std()`: missing below `minp`
observations, and also missing for a single observation (`ddof=1` divides by
`count - 1`).  The square root is irrational in general, so it is supplied
as an abstract function `sqrtFn`; no claim depends on the numeric value. -/
def rollingStd (n minp : ℕ) (sqrtFn : ℚ → ℚ) (xs : List ℚ) : List (Option ℚ) :=
  (List.range xs.length).map (fun i =>
    let w := rollingWindow n xs i
    if w.length < minp then none
    else if w.length < 2 then none
    else some (sqrtFn (sampleVar w)))

/-- `TechnicalIndicators.boll` (indicators.py:112-133): returns
`(boll_mid, boll_upper, boll_lower)`. -/
def boll (close : List ℚ) (n : ℕ) (k : ℚ) (minp : ℕ) (sqrtFn : ℚ → ℚ) :
    List (Option ℚ) × List (Option ℚ) × List (Option ℚ) :=
  let mid := rollingMeanMP n minp close
  let std := rollingStd n minp sqrtFn close
  let upper := List.zipWith (fun m s =>
    match m, s with
    | some mv, some sv => some (mv + k * sv)
    | _, _ => none) mid std
  let lower := List.zipWith (fun m s =>
    match m, s with
    | some mv, some sv => some (mv - k * sv)
    | _, _ => none) mid std
  (mid, upper, lower)

/-- pandas `rolling(window=n, min_periods=n).min()`: the window minimum,
missing until `n` observations exist. -/
def rollingMinN (n : ℕ) (xs : List ℚ) : List (Option ℚ) :=
  (List.range xs.length).map (fun i =>
    if i + 1 < n then none
    else
      match rollingWindow n xs i with
      | [] => none
      | y :: ys => some (ys.foldl min y))

/-- pandas `rolling(window=n, min_periods=n).max()`. -/
def rollingMaxN (n : ℕ) (xs : List ℚ) : List (Option ℚ) :=
  (List.range xs.length).map (fun i =>
    if i + 1 < n then none
    else
      match rollingWindow n xs i with
      | [] => none
      | y :: ys => some (ys.foldl max y))

/-- The RSV series of `kdj` (indicators.py:174-177):
`(close - lowest_low) / (highest_high - lowest_low) * 100`, with infinities
from a zero range replaced by missing values (a zero range always produces a
missing value: in floats `0/0` is NaN and `x/0` is an infinity which the
source replaces with NaN). -/
def rsvSeries (high low close : List ℚ) (n : ℕ) : List (Option ℚ) :=
  (List.range close.length).map (fun i =>
    match (rollingMinN n low).getD i none, (rollingMaxN n high).getD i none with
    | some ll, some hh =>
      if hh - ll = 0 then none else some ((close.getD i 0 - ll) / (hh - ll) * 100)
    | _, _ => none)

/-- The explicit chronological loop of `kdj` (indicators.py:187-197):
carries `last_k`/`last_d`, emits missing K/D on a missing RSV without
advancing the carried state, else advances by the classical recurrence. -/
def kdjFold (αk αd : ℚ) : List (Option ℚ) → ℚ → ℚ → List (Option ℚ × Option ℚ)
  | [], _, _ => []
  | r :: rest, last_k, last_d =>
    match r with
    | none => (none, none) :: kdjFold αk αd rest last_k last_d
    | some rv =>
      let curr_k := (1 - αk) * last_k + αk * rv
      let curr_d := (1 - αd) * last_d + αd * curr_k
      (some curr_k, some curr_d) :: kdjFold αk αd rest curr_k curr_d

/-- The three KDJ output columns. -/
structure KDJ where
  kdj_k : List (Option ℚ)
  kdj_d : List (Option ℚ)
  kdj_j : List (Option ℚ)
deriving DecidableEq, Repr

/-- `TechnicalIndicators.kdj` (indicators.py:158-204): RSV from `n`-bar
rolling extrema, K/D by the seeded chronological recurrence with
`alpha_k = 1/m1`, `alpha_d = 1/m2` and seed 50/50, and `J = 3K - 2D`. -/
def kdj (high low close : List ℚ) (n m1 m2 : ℕ) : KDJ :=
  let rsv := rsvSeries high low close n
  let kd := kdjFold (1 / (m1 : ℚ)) (1 / (m2 : ℚ)) rsv 50 50
  { kdj_k := kd.map Prod.fst
    kdj_d := kd.map Prod.snd
    kdj_j := kd.map (fun p =>
      match p.1, p.2 with
      | some k, some d => some (3 * k - 2 * d)
      | _, _ => none) }

/-- Modelled from the spec text of `kdj`: one transition of the K/D state —
unchanged on an undefined RSV, else the classical smoothing recurrence. -/
def kdjStep (αk αd : ℚ) (s : ℚ × ℚ) (r : Option ℚ) : ℚ × ℚ :=
  match r with
  | none => s
  | some rv =>
    let k := (1 - αk) * s.1 + αk * rv
    (k, (1 - αd) * s.2 + αd * k)

/-- Modelled from the spec text of `kdj`: the K/D state after a prefix of the
RSV series, starting from a given seed, advancing only on defined RSV bars. -/
def kdState (αk αd : ℚ) (init : ℚ × ℚ) (rsvs : List (Option ℚ)) : ℚ × ℚ :=
  rsvs.foldl (kdjStep αk αd) init

/-- Modelled from the spec text of `kdj`: at every index with a defined RSV,
K and D are given by the recurrence applied to the state carried over the
strict prefix (so the first defined RSV computes from the seed); at every
index with undefined RSV both are undefined. -/
def specKD (αk αd : ℚ) (init : ℚ × ℚ) (rsvs : List (Option ℚ)) :
    List (Option ℚ × Option ℚ) :=
  (List.range rsvs.length).map (fun i =>
    match rsvs.getD i none with
    | some rv =>
      let s := kdState αk αd init (rsvs.take i)
      let k := (1 - αk) * s.1 + αk * rv
      (some k, some ((1 - αd) * s.2 + αd * k))
    | none => (none, none))

end TechnicalIndicators

namespace SupportResistanceAnalyzer

/-- The fixed Fibonacci ratio table of `find_fibonacci_levels`, with the
level names produced by the Python format string `f"fib_{ratio*100:.1f}%"`. -/
def fibRatios : List (String × ℚ) :=
  [("fib_0.0%", 0), ("fib_23.6%", 236 / 1000), ("fib_38.2%", 382 / 1000),
   ("fib_50.0%", 1 / 2), ("fib_61.8%", 618 / 1000), ("fib_78.6%", 786 / 1000),
   ("fib_100.0%", 1)]

/-- `SupportResistanceAnalyzer.find_fibonacci_levels`
(support_resistance.py:109-156): empty for fewer than 10 bars; otherwise
resolves an `auto` trend from the full-series first and last closes, takes
the extrema of the last `min(60, len)` bars and projects the 7 ratio levels
from the low (uptrend) or from the high (any other trend value). -/
def find_fibonacci_levels (df : List Bar) (trend : String) : List (String × ℚ) :=
  if df.length < 10 then []
  else
    let trend2 :=
      if trend = "auto" then
        if ((df.getLast?).map Bar.close).getD 0 > ((df.head?).map Bar.close).getD 0
        then "up" else "down"
      else trend
    let lookback := min 60 df.length
    let recent := df.drop (df.length - lookback)
    let high :=
      match recent.map Bar.high with
      | [] => 0
      | x :: xs => xs.foldl max x
    let low :=
      match recent.map Bar.low with
      | [] => 0
      | x :: xs => xs.foldl min x
    let diff := high - low
    if trend2 = "up" then fibRatios.map (fun p => (p.1, low + diff * p.2))
    else fibRatios.map (fun p => (p.1, high - diff * p.2))

end SupportResistanceAnalyzer

namespace KLinePatternRecognizer

/-- The fields computed by `_calculate_body_info` (pattern_recognizer.py:
32-68). -/
structure BodyInfo where
  body_size : ℚ
  total_range : ℚ
  body_ratio : ℚ
  upper_shadow : ℚ
  lower_shadow : ℚ
  upper_shadow_ratio : ℚ
  lower_shadow_ratio : ℚ
  is_bullish : Bool
  is_bearish : Bool
deriving DecidableEq, Repr

/-- `KLinePatternRecognizer._calculate_body_info`: all ratios are 0 when the
bar has zero total range, else body and shadow sizes divided by the range. -/
def calculate_body_info (row : Bar) : BodyInfo :=
  if row.high - row.low = 0 then
    { body_size := 0, total_range := 0, body_ratio := 0,
      upper_shadow := 0, lower_shadow := 0,
      upper_shadow_ratio := 0, lower_shadow_ratio := 0,
      is_bullish := decide (row.close > row.open_),
      is_bearish := decide (row.close < row.open_) }
  else
    { body_size := |row.close - row.open_|,
      total_range := row.high - row.low,
      body_ratio := |row.close - row.open_| / (row.high - row.low),
      upper_shadow := row.high - max row.open_ row.close,
      lower_shadow := min row.open_ row.close - row.low,
      upper_shadow_ratio := (row.high - max row.open_ row.close) / (row.high - row.low),
      lower_shadow_ratio := (min row.open_ row.close - row.low) / (row.high - row.low),
      is_bullish := decide (row.close > row.open_),
      is_bearish := decide (row.close < row.open_) }

/-- `KLinePatternRecognizer.recognize_single_pattern`
(pattern_recognizer.py:70-130): the sequential rule chain with the doji
check first; each Python `return` is a nested `else`. -/
def recognize_single_pattern (body_threshold shadow_threshold : ℚ) (row : Bar) :
    Option String :=
  let info := calculate_body_info row
  if info.body_ratio < body_threshold then
    if info.upper_shadow_ratio > shadow_threshold ∧
       info.lower_shadow_ratio > shadow_threshold then
      some "十字星（长上下影）"
    else some "十字星"
  else if info.lower_shadow_ratio > 2 * info.body_ratio ∧
      info.upper_shadow_ratio < shadow_threshold then
    if info.is_bullish then some "锤子线（看涨）" else some "上吊线（看跌）"
  else if info.upper_shadow_ratio > 2 * info.body_ratio ∧
      info.lower_shadow_ratio < shadow_threshold then
    if info.is_bullish then some "流星线（看跌）" else some "倒锤子（看涨）"
  else if info.is_bullish ∧ info.body_ratio > 7 / 10 then some "大阳线"
  else if info.is_bearish ∧ info.body_ratio > 7 / 10 then some "大阴线"
  else if info.is_bullish ∧ info.body_ratio > 1 / 2 then some "中阳线"
  else if info.is_bearish ∧ info.body_ratio > 1 / 2 then some "中阴线"
  else if info.is_bullish then some "小阳线"
  else if info.is_bearish then some "小阴线"
  else none

end KLinePatternRecognizer

namespace TrendAnalyzer

/-- The sub-verdict strings read by `_get_overall_trend`: the `trend` entries
of the MA, MACD and KDJ sub-analyses, plus the Bollinger position (present in
the analysis dictionary but never read by the vote). -/
structure TrendVerdicts where
  ma_trend : String
  macd_trend : String
  kdj_trend : String
  boll_position : String
deriving DecidableEq, Repr

/-- `TrendAnalyzer._get_overall_trend` (trend_analyzer.py:266-281): counts
how many of the MA/MACD/KDJ sub-verdicts are in `{up, strong_up}` and in
`{down, strong_down}`; 2 or more up wins, else 2 or more down, else
sideways. -/
def get_overall_trend (analysis : TrendVerdicts) : String :=
  let ts := [analysis.ma_trend, analysis.macd_trend, analysis.kdj_trend]
  let up_count := (ts.filter (fun t => t == "up" || t == "strong_up")).length
  let down_count := (ts.filter (fun t => t == "down" || t == "strong_down")).length
  if up_count ≥ 2 then "uptrend"
  else if down_count ≥ 2 then "downtrend"
  else "sideways"

/-- Modelled from the spec text: a sub-verdict is directionally up when it is
`up` or `strong up`. -/
def directionallyUp (t : String) : Prop := t = "up" ∨ t = "strong_up"

instance (t : String) : Decidable (directionallyUp t) := by
  unfold directionallyUp; infer_instance

/-- Modelled from the spec text: a sub-verdict is directionally down when it
is `down` or `strong down`. -/
def directionallyDown (t : String) : Prop := t = "down" ∨ t = "strong_down"

instance (t : String) : Decidable (directionallyDown t) := by
  unfold directionallyDown; infer_instance

/-- Modelled from the spec text of the overall trend fusion: a 2-of-3
majority vote over the MA, MACD and KDJ sub-verdicts only. -/
def specOverallTrend (ma macd kdj : String) : String :=
  let ups := ([ma, macd, kdj].filter (fun t => decide (directionallyUp t))).length
  let downs := ([ma, macd, kdj].filter (fun t => decide (directionallyDown t))).length
  if 2 ≤ ups then "uptrend"
  else if 2 ≤ downs then "downtrend"
  else "sideways"

end TrendAnalyzer

/-- A pandas column: one optional (NaN-able) value per bar index. -/
abbrev Column := List (Option ℚ)

/-- A pandas DataFrame as an ordered association of column names to columns. -/
abbrev DataFrame := List (String × Column)

/-- Column lookup (`df['name']` / `'name' in df.columns`). -/
def getCol : DataFrame → String → Option Column
  | [], _ => none
  | p :: rest, name => if p.1 = name then some p.2 else getCol rest name

/-- Column assignment (`df['name'] = values`): overwrite in place if the name
exists, else append the new column. -/
def setCol : DataFrame → String → Column → DataFrame
  | [], name, v => [(name, v)]
  | p :: rest, name, v =>
    if p.1 = name then (name, v) :: rest else p :: setCol rest name v

/-- The numeric values of an input column.  The OHLCV series this repository
feeds to the indicator engine contain no missing values; a missing entry is
read as 0 here (pandas would instead propagate NaN, a case no claim
touches). -/
def colVals (c : Column) : List ℚ := c.map (fun o => o.getD 0)

/-- An always-defined result list stored as a column. -/
def someCol (xs : List ℚ) : Column := xs.map some

/-- Whether an `Except` is a success (Python: the call returned instead of
raising). -/
def isOkB {ε α : Type} : Except ε α → Bool
  | .ok _ => true
  | .error _ => false

namespace TechnicalIndicators

/-- `TechnicalIndicators.add_all_indicators` (indicators.py:206-256): raises
for a missing `close` column, adds the fixed battery of indicator columns,
computes KDJ only when `high`, `low` and `close` are all present (silently
skipping it otherwise), and returns the augmented frame. -/
def add_all_indicators (sqrtFn : ℚ → ℚ) (rsi_style : String) (df : DataFrame) :
    Except String DataFrame :=
  match getCol df "close" with
  | none => Except.error "DataFrame缺少收盘价列: close"
  | some closeCol =>
    let close := colVals closeCol
    let df4 := setCol (setCol (setCol (setCol df "ma5" (ma close 5 1))
      "ma10" (ma close 10 1)) "ma20" (ma close 20 1)) "ma60" (ma close 60 1)
    let rsiStep : Except String DataFrame :=
      if rsi_style = "china" then
        match rsi close 6 "china" with
        | .error e => .error e
        | .ok r6 =>
          match rsi close 12 "china" with
          | .error e => .error e
          | .ok r12 =>
            match rsi close 24 "china" with
            | .error e => .error e
            | .ok r24 =>
              match rsi close 14 "sma" with
              | .error e => .error e
              | .ok r14 =>
                .ok (setCol (setCol (setCol (setCol (setCol df4 "rsi6" r6)
                  "rsi12" r12) "rsi24" r24) "rsi14" r14) "rsi" r12)
      else
        match rsi close 14 "ema" with
        | .error e => .error e
        | .ok r => .ok (setCol df4 "rsi" r)
    match rsiStep with
    | .error e => .error e
    | .ok df5 =>
      let m := macd close 12 26 9
      let df8 := setCol (setCol (setCol df5 "macd_dif" (someCol m.1))
        "macd_dea" (someCol m.2.1)) "macd" (someCol (m.2.2.map (fun x => x * 2)))
      let b := boll close 20 2 1 sqrtFn
      let df11 := setCol (setCol (setCol df8 "boll_mid" b.1)
        "boll_upper" b.2.1) "boll_lower" b.2.2
      match getCol df11 "high", getCol df11 "low", getCol df11 "close" with
      | some hc, some lc, some cc =>
        let kr := kdj (colVals hc) (colVals lc) (colVals cc) 9 3 3
        .ok (setCol (setCol (setCol df11 "kdj_k" kr.kdj_k)
          "kdj_d" kr.kdj_d) "kdj_j" kr.kdj_j)
      | _, _, _ => .ok df11

end TechnicalIndicators

/-- A frame with a close column but no high/low columns: the input on which
the spec demands a missing-field error for KDJ but the code silently skips
KDJ. -/
def dfNoHighLow : DataFrame := [("close", [some 1, some 2, some 3])]

/-- A one-bar frame with all five OHLCV columns. -/
def dfFull : DataFrame :=
  [("open", [some 1]), ("high", [some 2]), ("low", [some 0]),
   ("close", [some 1]), ("volume", [some 5])]

/-- The frame produced by `add_all_indicators` on `dfFull` (international
style, any square root): the five OHLCV columns unchanged, followed by the
indicator columns in assignment order. -/
def dfFullOut : DataFrame :=
  [("open", [some 1]), ("high", [some 2]), ("low", [some 0]),
   ("close", [some 1]), ("volume", [some 5]),
   ("ma5", [some 1]), ("ma10", [some 1]), ("ma20", [some 1]), ("ma60", [some 1]),
   ("rsi", [none]),
   ("macd_dif", [some 0]), ("macd_dea", [some 0]), ("macd", [some 0]),
   ("boll_mid", [some 1]), ("boll_upper", [none]), ("boll_lower", [none]),
   ("kdj_k", [none]), ("kdj_d", [none]), ("kdj_j", [none])]

namespace SupportResistanceAnalyzer

theorem isPeak_eq_decide (w : ℕ) (df : List Bar) (i : ℕ) (hw : w ≤ i) :
    isPeak w df i =
      decide (∀ j ∈ Finset.Icc (i - w) (i + w), j ≠ i → highAt df j < highAt df i) := by
  rw [Bool.eq_iff_iff, decide_eq_true_iff]
  unfold isPeak
  rw [List.all_eq_true]
  constructor
  · intro h j hj hne
    rcases Finset.mem_Icc.mp hj with ⟨h1, h2⟩
    have hmem : j ∈ List.range' (i - w) (2 * w + 1) :=
      List.mem_range'_1.mpr ⟨h1, by omega⟩
    have := h j hmem
    simp only [Bool.or_eq_true, beq_iff_eq, decide_eq_true_eq] at this
    exact this.resolve_left hne
  · intro h j hj
    rcases List.mem_range'_1.mp hj with ⟨h1, h2⟩
    simp only [Bool.or_eq_true, beq_iff_eq, decide_eq_true_eq]
    by_cases hji : j = i
    · exact Or.inl hji
    · exact Or.inr (h j (Finset.mem_Icc.mpr ⟨h1, by omega⟩) hji)

theorem isTrough_eq_decide (w : ℕ) (df : List Bar) (i : ℕ) (hw : w ≤ i) :
    isTrough w df i =
      decide (∀ j ∈ Finset.Icc (i - w) (i + w), j ≠ i → lowAt df i < lowAt df j) := by
  rw [Bool.eq_iff_iff, decide_eq_true_iff]
  unfold isTrough
  rw [List.all_eq_true]
  constructor
  · intro h j hj hne
    rcases Finset.mem_Icc.mp hj with ⟨h1, h2⟩
    have hmem : j ∈ List.range' (i - w) (2 * w + 1) :=
      List.mem_range'_1.mpr ⟨h1, by omega⟩
    have := h j hmem
    simp only [Bool.or_eq_true, beq_iff_eq, decide_eq_true_eq] at this
    exact this.resolve_left hne
  · intro h j hj
    rcases List.mem_range'_1.mp hj with ⟨h1, h2⟩
    simp only [Bool.or_eq_true, beq_iff_eq, decide_eq_true_eq]
    by_cases hji : j = i
    · exact Or.inl hji
    · exact Or.inr (h j (Finset.mem_Icc.mpr ⟨h1, by omega⟩) hji)

/-- C1 (amended): `find_pivot_points` returns the MERGED pivot price lists:
exactly `_merge_levels` applied to the raw strict-extremum pivot lists of the
spec, for every window, tolerance and series (short series yield empty
lists because the raw index range is empty). -/
theorem find_pivot_points_merged_of_raw (w : ℕ) (tol : ℚ) (df : List Bar) :
    find_pivot_points w tol df =
      (merge_levels tol (rawResistance w df), merge_levels tol (rawSupport w df)) := by
  unfold find_pivot_points rawResistance rawSupport
  by_cases hlen : df.length < w * 2
  · rw [if_pos hlen]
    have h0 : df.length - w - w = 0 := by omega
    rw [h0]
    rfl
  · rw [if_neg hlen]
    have hres : (List.range' w (df.length - w - w)).filter (isPeak w df)
        = (List.range' w (df.length - w - w)).filter
            (fun i => decide (∀ j ∈ Finset.Icc (i - w) (i + w),
              j ≠ i → highAt df j < highAt df i)) := by
      apply List.filter_congr
      intro i hi
      exact isPeak_eq_decide w df i (List.mem_range'_1.mp hi).1
    have hsup : (List.range' w (df.length - w - w)).filter (isTrough w df)
        = (List.range' w (df.length - w - w)).filter
            (fun i => decide (∀ j ∈ Finset.Icc (i - w) (i + w),
              j ≠ i → lowAt df i < lowAt df j)) := by
      apply List.filter_congr
      intro i hi
      exact isTrough_eq_decide w df i (List.mem_range'_1.mp hi).1
    dsimp only
    rw [hres, hsup]

/-- C1 (counterexample): on a 62-bar series with strict pivot highs 100 (at
index 20) and 100.2 (at index 41), `find_pivot_points` with the default
window 20 and tolerance 0.005 returns the single merged level 100.1 — not the
raw (unmerged) two-element pivot list the claim describes. -/
theorem find_pivot_points_counterexample :
    find_pivot_points 20 (1 / 200) df62 = ([1001 / 10], []) ∧
      rawResistance 20 df62 = [100, 501 / 5] := by
  constructor <;> with_unfolding_all rfl

/-- C5: `mergeLevels([100, 100.3, 200], tolerance=0.005)` merges 100 and
100.3 (relative gap below 0.5%) into their mean 100.15 and leaves 200
separate, returning the descending list `[200, 100.15]`. -/
theorem merge_levels_example :
    merge_levels (1 / 200) [100, 1003 / 10, 200] = [200, 2003 / 20] := by
  with_unfolding_all rfl

end SupportResistanceAnalyzer

namespace TechnicalIndicators

theorem kdState_cons (αk αd : ℚ) (init : ℚ × ℚ) (r : Option ℚ) (rest : List (Option ℚ)) :
    kdState αk αd init (r :: rest) = kdState αk αd (kdjStep αk αd init r) rest := rfl

theorem kdjFold_eq_specKD (αk αd : ℚ) :
    ∀ (rsvs : List (Option ℚ)) (init : ℚ × ℚ),
      kdjFold αk αd rsvs init.1 init.2 = specKD αk αd init rsvs := by
  intro rsvs
  induction rsvs with
  | nil => intro init; rfl
  | cons r rest ih =>
    intro init
    have hrange : specKD αk αd init (r :: rest)
        = (match r with
            | some rv =>
              let k := (1 - αk) * init.1 + αk * rv
              (some k, some ((1 - αd) * init.2 + αd * k))
            | none => (none, none)) ::
          specKD αk αd (kdjStep αk αd init r) rest := by
      unfold specKD
      rw [List.length_cons, List.range_succ_eq_map, List.map_cons, List.map_map]
      congr 1
    rw [hrange]
    cases r with
    | none =>
      show (none, none) :: kdjFold αk αd rest init.1 init.2 = _
      rw [ih init]
      rfl
    | some rv =>
      show (some _, some _) :: kdjFold αk αd rest _ _ = _
      rw [show kdjStep αk αd init (some rv)
            = ((1 - αk) * init.1 + αk * rv,
               (1 - αd) * init.2 + αd * ((1 - αk) * init.1 + αk * rv)) from rfl]
      rw [← ih ((1 - αk) * init.1 + αk * rv,
               (1 - αd) * init.2 + αd * ((1 - αk) * init.1 + αk * rv))]

/-- C3: the KDJ K/D recurrence is a strict chronological fold seeded at
K=D=50: the source loop equals, columnwise, the spec formulation in which a
bar with undefined RSV yields undefined K and D and leaves the carried state
unchanged, while a bar with RSV defined computes
`K = (1 - 1/m1)*K_prev + (1/m1)*RSV` and `D = (1 - 1/m2)*D_prev + (1/m2)*K`
from the state accumulated over the strict prefix (the 50/50 seed when no
earlier RSV was defined), with `J = 3K - 2D` wherever K and D are defined. -/
theorem kdj_recurrence_spec (high low close : List ℚ) (n m1 m2 : ℕ) :
    kdj high low close n m1 m2 =
      { kdj_k := (specKD (1 / (m1 : ℚ)) (1 / (m2 : ℚ)) (50, 50)
          (rsvSeries high low close n)).map Prod.fst
        kdj_d := (specKD (1 / (m1 : ℚ)) (1 / (m2 : ℚ)) (50, 50)
          (rsvSeries high low close n)).map Prod.snd
        kdj_j := (specKD (1 / (m1 : ℚ)) (1 / (m2 : ℚ)) (50, 50)
          (rsvSeries high low close n)).map (fun p =>
            match p.1, p.2 with
            | some k, some d => some (3 * k - 2 * d)
            | _, _ => none) } := by
  unfold kdj
  dsimp only
  rw [show kdjFold (1 / (m1 : ℚ)) (1 / (m2 : ℚ)) (rsvSeries high low close n) 50 50
        = specKD (1 / (m1 : ℚ)) (1 / (m2 : ℚ)) (50, 50) (rsvSeries high low close n)
      from kdjFold_eq_specKD _ _ _ (50, 50)]

end TechnicalIndicators

namespace TechnicalIndicators

theorem zipWith_forall_prop {α β γ : Type} (f : α → β → γ) (P : γ → Prop)
    (hf : ∀ a b, P (f a b)) :
    ∀ (as : List α) (bs : List β), ∀ x ∈ List.zipWith f as bs, P x := by
  intro as
  induction as with
  | nil => intro bs x hx; simp at hx
  | cons a as ih =>
    intro bs x hx
    cases bs with
    | nil => simp at hx
    | cons b bs =>
      simp only [List.zipWith_cons_cons, List.mem_cons] at hx
      rcases hx with rfl | hx
      · exact hf a b
      · exact ih bs x hx

theorem gains_nonneg (close : List ℚ) : ∀ x ∈ gains close, 0 ≤ x := by
  cases close with
  | nil => intro x hx; simp [gains] at hx
  | cons c rest =>
    intro x hx
    simp only [gains, List.mem_cons] at hx
    rcases hx with rfl | hx
    · exact le_refl 0
    · exact zipWith_forall_prop _ _ (fun a b => le_max_right (b - a) 0) _ _ x hx

theorem losses_nonneg (close : List ℚ) : ∀ x ∈ losses close, 0 ≤ x := by
  cases close with
  | nil => intro x hx; simp [losses] at hx
  | cons c rest =>
    intro x hx
    simp only [losses, List.mem_cons] at hx
    rcases hx with rfl | hx
    · exact le_refl 0
    · exact zipWith_forall_prop _ _ (fun a b => le_max_right (a - b) 0) _ _ x hx

theorem one_div_nat_cast_nonneg (n : ℕ) : 0 ≤ 1 / (n : ℚ) := by positivity

theorem one_div_nat_cast_le_one (n : ℕ) : 1 / (n : ℚ) ≤ 1 := by
  cases n with
  | zero => simp
  | succ m =>
    rw [one_div]
    exact inv_le_one_of_one_le₀ (by exact_mod_cast Nat.succ_le_succ (Nat.zero_le m))

theorem ewmAdjFalseGo_nonneg (α : ℚ) (hα0 : 0 ≤ α) (hα1 : α ≤ 1) :
    ∀ (xs : List ℚ) (prev : ℚ), 0 ≤ prev → (∀ x ∈ xs, 0 ≤ x) →
      ∀ y ∈ ewmAdjFalseGo α prev xs, 0 ≤ y := by
  intro xs
  induction xs with
  | nil => intro prev _ _ y hy; simp [ewmAdjFalseGo] at hy
  | cons x xs ih =>
    intro prev hp hxs y hy
    have hx : 0 ≤ x := hxs x (by simp)
    have hstep : 0 ≤ (1 - α) * prev + α * x := by nlinarith
    simp only [ewmAdjFalseGo, List.mem_cons] at hy
    rcases hy with rfl | hy
    · exact hstep
    · exact ih _ hstep (fun z hz => hxs z (by simp [hz])) y hy

theorem ewmAdjFalse_nonneg (α : ℚ) (hα0 : 0 ≤ α) (hα1 : α ≤ 1)
    (xs : List ℚ) (hxs : ∀ x ∈ xs, 0 ≤ x) : ∀ y ∈ ewmAdjFalse α xs, 0 ≤ y := by
  cases xs with
  | nil => intro y hy; simp [ewmAdjFalse] at hy
  | cons x xs =>
    intro y hy
    have hx : 0 ≤ x := hxs x (by simp)
    simp only [ewmAdjFalse, List.mem_cons] at hy
    rcases hy with rfl | hy
    · exact hx
    · exact ewmAdjFalseGo_nonneg α hα0 hα1 xs x hx
        (fun z hz => hxs z (by simp [hz])) y hy

theorem rollingWindow_subset (n : ℕ) (xs : List ℚ) (i : ℕ) :
    ∀ x ∈ rollingWindow n xs i, x ∈ xs := by
  intro x hx
  exact List.mem_of_mem_take (List.mem_of_mem_drop hx)

theorem rollingMean1_nonneg (n : ℕ) (xs : List ℚ) (hxs : ∀ x ∈ xs, 0 ≤ x) :
    ∀ y ∈ rollingMean1 n xs, 0 ≤ y := by
  intro y hy
  simp only [rollingMean1, List.mem_map, List.mem_range] at hy
  obtain ⟨i, _, rfl⟩ := hy
  apply div_nonneg
  · exact List.sum_nonneg (fun x hx => hxs x (rollingWindow_subset n xs i x hx))
  · positivity

theorem ewmAdjTrueGo_nonneg (α : ℚ) (hα0 : 0 ≤ α) (hα1 : α ≤ 1) :
    ∀ (xs : List ℚ) (num den : ℚ), 0 ≤ num → 0 ≤ den → (∀ x ∈ xs, 0 ≤ x) →
      ∀ y ∈ ewmAdjTrueGo α num den xs, 0 ≤ y := by
  intro xs
  induction xs with
  | nil => intro num den _ _ _ y hy; simp [ewmAdjTrueGo] at hy
  | cons x xs ih =>
    intro num den hnum hden hxs y hy
    have hx : 0 ≤ x := hxs x (by simp)
    have hnum2 : 0 ≤ (1 - α) * num + x := by nlinarith
    have hden2 : 0 ≤ (1 - α) * den + 1 := by nlinarith
    simp only [ewmAdjTrueGo, List.mem_cons] at hy
    rcases hy with rfl | hy
    · exact div_nonneg hnum2 hden2
    · exact ih _ _ hnum2 hden2 (fun z hz => hxs z (by simp [hz])) y hy

theorem ewmAdjTrue_nonneg (α : ℚ) (hα0 : 0 ≤ α) (hα1 : α ≤ 1)
    (xs : List ℚ) (hxs : ∀ x ∈ xs, 0 ≤ x) : ∀ y ∈ ewmAdjTrue α xs, 0 ≤ y :=
  ewmAdjTrueGo_nonneg α hα0 hα1 xs 0 0 (le_refl 0) (le_refl 0) hxs

theorem rsiAvgs_nonneg (close : List ℚ) (n : ℕ) (method : String)
    (ag al : List ℚ) (h : rsiAvgs close n method = some (ag, al)) :
    (∀ x ∈ ag, 0 ≤ x) ∧ (∀ x ∈ al, 0 ≤ x) := by
  have hα0 := one_div_nat_cast_nonneg n
  have hα1 := one_div_nat_cast_le_one n
  unfold rsiAvgs at h
  split at h
  · simp only [Option.some.injEq, Prod.mk.injEq] at h
    obtain ⟨rfl, rfl⟩ := h
    exact ⟨ewmAdjFalse_nonneg _ hα0 hα1 _ (gains_nonneg close),
           ewmAdjFalse_nonneg _ hα0 hα1 _ (losses_nonneg close)⟩
  · simp only [Option.some.injEq, Prod.mk.injEq] at h
    obtain ⟨rfl, rfl⟩ := h
    exact ⟨rollingMean1_nonneg _ _ (gains_nonneg close),
           rollingMean1_nonneg _ _ (losses_nonneg close)⟩
  · simp only [Option.some.injEq, Prod.mk.injEq] at h
    obtain ⟨rfl, rfl⟩ := h
    exact ⟨ewmAdjTrue_nonneg _ hα0 hα1 _ (gains_nonneg close),
           ewmAdjTrue_nonneg _ hα0 hα1 _ (losses_nonneg close)⟩
  · exact absurd h (by simp)

theorem gains_length (close : List ℚ) : (gains close).length = close.length := by
  cases close <;> simp [gains]

theorem losses_length (close : List ℚ) : (losses close).length = close.length := by
  cases close <;> simp [losses]

theorem ewmAdjFalseGo_length (α : ℚ) :
    ∀ (xs : List ℚ) (prev : ℚ), (ewmAdjFalseGo α prev xs).length = xs.length := by
  intro xs
  induction xs with
  | nil => intro prev; rfl
  | cons x xs ih => intro prev; simp [ewmAdjFalseGo, ih]

theorem ewmAdjFalse_length (α : ℚ) (xs : List ℚ) :
    (ewmAdjFalse α xs).length = xs.length := by
  cases xs with
  | nil => rfl
  | cons x xs => simp [ewmAdjFalse, ewmAdjFalseGo_length]

theorem ewmAdjTrueGo_length (α : ℚ) :
    ∀ (xs : List ℚ) (num den : ℚ), (ewmAdjTrueGo α num den xs).length = xs.length := by
  intro xs
  induction xs with
  | nil => intro num den; rfl
  | cons x xs ih => intro num den; simp [ewmAdjTrueGo, ih]

theorem rollingMean1_length (n : ℕ) (xs : List ℚ) :
    (rollingMean1 n xs).length = xs.length := by
  simp [rollingMean1]

theorem rsiAvgs_length (close : List ℚ) (n : ℕ) (method : String)
    (ag al : List ℚ) (h : rsiAvgs close n method = some (ag, al)) :
    ag.length = al.length := by
  unfold rsiAvgs at h
  split at h
  · simp only [Option.some.injEq, Prod.mk.injEq] at h
    obtain ⟨rfl, rfl⟩ := h
    rw [ewmAdjFalse_length, ewmAdjFalse_length, gains_length, losses_length]
  · simp only [Option.some.injEq, Prod.mk.injEq] at h
    obtain ⟨rfl, rfl⟩ := h
    rw [rollingMean1_length, rollingMean1_length, gains_length, losses_length]
  · simp only [Option.some.injEq, Prod.mk.injEq] at h
    obtain ⟨rfl, rfl⟩ := h
    rw [ewmAdjTrue, ewmAdjTrue, ewmAdjTrueGo_length, ewmAdjTrueGo_length,
      gains_length, losses_length]
  · exact absurd h (by simp)

theorem zipWith_get?_some {α β γ : Type} (f : α → β → γ) (as : List α) (bs : List β)
    (i : ℕ) (a : α) (b : β) (ha : as.get? i = some a) (hb : bs.get? i = some b) :
    (List.zipWith f as bs).get? i = some (f a b) := by
  induction as generalizing bs i with
  | nil => simp at ha
  | cons x xs ih =>
    cases bs with
    | nil => simp at hb
    | cons y ys =>
      cases i with
      | zero => simp_all
      | succ m => simpa using ih ys m (by simpa using ha) (by simpa using hb)

theorem zipWith_get?_inv {α β γ : Type} (f : α → β → γ) (as : List α) (bs : List β)
    (i : ℕ) (y : γ) (h : (List.zipWith f as bs).get? i = some y) :
    ∃ a b, as.get? i = some a ∧ bs.get? i = some b ∧ y = f a b := by
  induction as generalizing bs i with
  | nil => simp at h
  | cons x xs ih =>
    cases bs with
    | nil => simp at h
    | cons z zs =>
      cases i with
      | zero =>
        refine ⟨x, z, by simp, by simp, ?_⟩
        simpa using h.symm
      | succ m =>
        obtain ⟨a, b, ha, hb, hy⟩ := ih zs m (by simpa using h)
        exact ⟨a, b, by simpa using ha, by simpa using hb, hy⟩

/-- C7: wherever `rsi` produces a defined value it lies in `[0, 100]`, for
every close series, period and method; and wherever the smoothed average
loss is exactly zero the value is undefined (the divide-by-zero guard),
not infinity and not 100. -/
theorem rsi_bounds (close : List ℚ) (n : ℕ) (method : String) (out : List (Option ℚ))
    (h : rsi close n method = Except.ok out) :
    (∀ i v, out.get? i = some (some v) → 0 ≤ v ∧ v ≤ 100) ∧
    (∀ ag al, rsiAvgs close n method = some (ag, al) →
      ∀ i, al.get? i = some 0 → out.get? i = some none) := by
  unfold rsi at h
  split at h
  · exact absurd h (by simp)
  · rename_i ag0 al0 heq
    simp only [Except.ok.injEq] at h
    subst h
    constructor
    · intro i v hv
      obtain ⟨g, l, hg, hl, hval⟩ := zipWith_get?_inv _ _ _ _ _ hv
      have hgmem : g ∈ ag0 := List.get?_mem hg
      have hlmem : l ∈ al0 := List.get?_mem hl
      have hnn := rsiAvgs_nonneg close n method ag0 al0 heq
      have hg0 : 0 ≤ g := hnn.1 g hgmem
      have hl0 : 0 ≤ l := hnn.2 l hlmem
      by_cases hlz : l = 0
      · rw [if_pos hlz] at hval; exact absurd hval (by simp)
      · rw [if_neg hlz] at hval
        have hlpos : 0 < l := lt_of_le_of_ne hl0 (Ne.symm hlz)
        have ht : 0 ≤ g / l := div_nonneg hg0 hlpos.le
        have h1t : (0:ℚ) < 1 + g / l := by linarith
        have hdivle : 100 / (1 + g / l) ≤ 100 := div_le_self (by norm_num) (by linarith)
        have hdivpos : 0 < 100 / (1 + g / l) := by positivity
        have hv2 : v = 100 - 100 / (1 + g / l) := by
          simpa using hval
        constructor <;> rw [hv2] <;> linarith
    · intro ag al hagal i hzero
      rw [heq] at hagal
      simp only [Option.some.injEq, Prod.mk.injEq] at hagal
      obtain ⟨h1, h2⟩ := hagal
      subst h1
      subst h2
      have hlen : ag0.length = al0.length := rsiAvgs_length close n method ag0 al0 heq
      have hi : i < al0.length := by
        rcases List.get?_eq_some.mp hzero with ⟨hlt, _⟩
        exact hlt
      have hig : i < ag0.length := by omega
      have hg : ag0.get? i = some (ag0.get ⟨i, hig⟩) := List.get?_eq_get hig
      unfold rsiFromAvgs
      rw [zipWith_get?_some _ ag0 al0 i _ 0 hg hzero]
      simp

end TechnicalIndicators

/-- C7 witness: on the series `[1, 2, 1]` with the default 14-period `ema`
method, the RSI output is `[undefined, undefined, 1300/27]`; the theorem
yields the bounds at index 2 and the zero-average-loss undefinedness at
index 0. -/
theorem rsi_bounds_witness :
    ((0:ℚ) ≤ 1300 / 27 ∧ (1300 / 27 : ℚ) ≤ 100) ∧
      ([none, none, some ((1300 : ℚ) / 27)].get? 0 = some none) := by
  have h := TechnicalIndicators.rsi_bounds [1, 2, 1] 14 "ema"
    [none, none, some (1300 / 27)] (by with_unfolding_all rfl)
  exact ⟨h.1 2 (1300 / 27) (by with_unfolding_all rfl),
         h.2 [0, 1 / 14, 13 / 196] [0, 0, 1 / 14] (by with_unfolding_all rfl)
           0 (by with_unfolding_all rfl)⟩

namespace KLinePatternRecognizer

/-- C6: the doji rule is tested first and short-circuits — for every bar
whose body ratio is below the doji threshold, the classification is "doji
with long wicks" (十字星（长上下影）) when both shadow ratios exceed the
shadow threshold and plain "doji" (十字星) otherwise, and no later rule
(hammer included) is consulted. -/
theorem recognize_single_doji_short_circuit (bt st : ℚ) (row : Bar)
    (h : (calculate_body_info row).body_ratio < bt) :
    recognize_single_pattern bt st row =
      if (calculate_body_info row).upper_shadow_ratio > st ∧
         (calculate_body_info row).lower_shadow_ratio > st
      then some "十字星（长上下影）" else some "十字星" := by
  unfold recognize_single_pattern
  dsimp only
  rw [if_pos h]

/-- C6 witness: the bar (open 0.4, high 1, low 0, close 0.45) has body ratio
0.05 < 0.5 and both shadow ratios above 0.3, and is classified as "doji with
long wicks" — not as a generic doji and not as a hammer. -/
theorem recognize_single_doji_short_circuit_witness :
    recognize_single_pattern (1 / 2) (3 / 10) ⟨2 / 5, 1, 0, 9 / 20⟩ =
      some "十字星（长上下影）" := by
  rw [recognize_single_doji_short_circuit (1 / 2) (3 / 10) ⟨2 / 5, 1, 0, 9 / 20⟩
    (by with_unfolding_all decide)]
  with_unfolding_all rfl

theorem no_hammer_cond (o c hi lo : ℚ) (h1 : lo ≤ o) (h2 : lo ≤ c)
    (h3 : o ≤ hi) (h4 : c ≤ hi) (hr : hi - lo ≠ 0)
    (hd : ¬(|c - o| / (hi - lo) < 1 / 2)) :
    ¬((min o c - lo) / (hi - lo) > 2 * (|c - o| / (hi - lo))) := by
  intro hc
  have hrpos : 0 < hi - lo := lt_of_le_of_ne (by linarith) (Ne.symm hr)
  push_neg at hd
  have hb : hi - lo ≤ 2 * |c - o| := by
    rw [le_div_iff hrpos] at hd; linarith
  have hup : 0 ≤ hi - max o c := by
    have := max_le h3 h4; linarith
  have hsum : (hi - max o c) + |c - o| + (min o c - lo) = hi - lo := by
    have habs := max_sub_min_eq_abs o c
    linarith
  rw [gt_iff_lt, show 2 * (|c - o| / (hi - lo)) = (2 * |c - o|) / (hi - lo) from by ring,
    div_lt_div_iff hrpos hrpos] at hc
  have h2b : 2 * |c - o| < min o c - lo := lt_of_mul_lt_mul_right hc (by linarith)
  have hbody : 0 ≤ |c - o| := abs_nonneg _
  linarith

theorem no_star_cond (o c hi lo : ℚ) (h1 : lo ≤ o) (h2 : lo ≤ c)
    (h3 : o ≤ hi) (h4 : c ≤ hi) (hr : hi - lo ≠ 0)
    (hd : ¬(|c - o| / (hi - lo) < 1 / 2)) :
    ¬((hi - max o c) / (hi - lo) > 2 * (|c - o| / (hi - lo))) := by
  intro hc
  have hrpos : 0 < hi - lo := lt_of_le_of_ne (by linarith) (Ne.symm hr)
  push_neg at hd
  have hb : hi - lo ≤ 2 * |c - o| := by
    rw [le_div_iff hrpos] at hd; linarith
  have hlo : 0 ≤ min o c - lo := by
    have := le_min h1 h2; linarith
  have hsum : (hi - max o c) + |c - o| + (min o c - lo) = hi - lo := by
    have habs := max_sub_min_eq_abs o c
    linarith
  rw [gt_iff_lt, show 2 * (|c - o| / (hi - lo)) = (2 * |c - o|) / (hi - lo) from by ring,
    div_lt_div_iff hrpos hrpos] at hc
  have h2b : 2 * |c - o| < hi - max o c := lt_of_mul_lt_mul_right hc (by linarith)
  have hbody : 0 ≤ |c - o| := abs_nonneg _
  linarith

/-- C9: with the default thresholds (body 0.5, shadow 0.3), the single-bar
classifier never returns the hammer, hanging-man, shooting-star or
inverted-hammer labels on any well-formed OHLC bar (low below both body
ends, high above both): a body ratio below 0.5 is captured by the doji rule,
and otherwise a shadow strictly longer than twice the body would have to
exceed the whole range. -/
theorem recognize_single_no_hammer_family (row : Bar)
    (h1 : row.low ≤ row.open_) (h2 : row.low ≤ row.close)
    (h3 : row.open_ ≤ row.high) (h4 : row.close ≤ row.high) :
    recognize_single_pattern (1 / 2) (3 / 10) row ∉
      ([some "锤子线（看涨）", some "上吊线（看跌）",
        some "流星线（看跌）", some "倒锤子（看涨）"] : List (Option String)) := by
  unfold recognize_single_pattern calculate_body_info
  by_cases hr : row.high - row.low = 0
  · rw [if_pos hr]
    dsimp only
    rw [if_pos (show (0 : ℚ) < 1 / 2 by norm_num)]
    split <;> decide
  · rw [if_neg hr]
    dsimp only
    split
    · split <;> decide
    · rename_i hnd
      split
      · rename_i hham
        exact absurd hham.1
          (no_hammer_cond row.open_ row.close row.high row.low h1 h2 h3 h4 hr hnd)
      · split
        · rename_i hstar
          exact absurd hstar.1
            (no_star_cond row.open_ row.close row.high row.low h1 h2 h3 h4 hr hnd)
        · repeat' split
          all_goals decide

/-- C9 witness: a full-bodied bullish bar (open 0, high 1, low 0, close 1)
is well-formed and is not classified into the hammer family. -/
theorem recognize_single_no_hammer_family_witness :
    recognize_single_pattern (1 / 2) (3 / 10) ⟨0, 1, 0, 1⟩ ∉
      ([some "锤子线（看涨）", some "上吊线（看跌）",
        some "流星线（看跌）", some "倒锤子（看涨）"] : List (Option String)) :=
  recognize_single_no_hammer_family ⟨0, 1, 0, 1⟩ (by norm_num) (by norm_num)
    (by norm_num) (by norm_num)

end KLinePatternRecognizer

namespace TrendAnalyzer

/-- C4: the overall trend verdict is a 2-of-3 majority vote over the MA,
MACD and KDJ sub-verdicts only — it is independent of the Bollinger
position, equals the spec-side majority vote, and in particular up/up/down
votes give `uptrend` and up/down/down votes give `downtrend`. -/
theorem get_overall_trend_majority_vote :
    (∀ (a : TrendVerdicts) (b : String),
      get_overall_trend { a with boll_position := b } = get_overall_trend a) ∧
    (∀ a : TrendVerdicts,
      get_overall_trend a = specOverallTrend a.ma_trend a.macd_trend a.kdj_trend) ∧
    (∀ b : String, get_overall_trend ⟨"up", "up", "down", b⟩ = "uptrend") ∧
    (∀ b : String, get_overall_trend ⟨"up", "down", "down", b⟩ = "downtrend") := by
  have hup : (fun t : String => t == "up" || t == "strong_up")
      = (fun t : String => decide (directionallyUp t)) := by
    funext t
    rw [Bool.eq_iff_iff]
    simp [directionallyUp]
  have hdown : (fun t : String => t == "down" || t == "strong_down")
      = (fun t : String => decide (directionallyDown t)) := by
    funext t
    rw [Bool.eq_iff_iff]
    simp [directionallyDown]
  refine ⟨fun a b => rfl, fun a => ?_, fun b => ?_, fun b => ?_⟩
  · unfold get_overall_trend specOverallTrend
    dsimp only
    rw [hup, hdown]
  · with_unfolding_all rfl
  · with_unfolding_all rfl

end TrendAnalyzer

namespace SupportResistanceAnalyzer

/-- C10: `find_fibonacci_levels` returns no levels at all for any series
shorter than 10 bars, whatever the trend argument; for a series of at least
10 bars it returns exactly the 7 ratio levels, in ratio order. -/
theorem find_fibonacci_levels_short_empty (df : List Bar) (trend : String) :
    (df.length < 10 → find_fibonacci_levels df trend = []) ∧
    (10 ≤ df.length → (find_fibonacci_levels df trend).map Prod.fst =
      ["fib_0.0%", "fib_23.6%", "fib_38.2%", "fib_50.0%", "fib_61.8%",
       "fib_78.6%", "fib_100.0%"]) := by
  constructor
  · intro h
    unfold find_fibonacci_levels
    rw [if_pos h]
  · intro h
    unfold find_fibonacci_levels
    rw [if_neg (by omega)]
    dsimp only
    repeat' split
    all_goals rw [List.map_map]
    all_goals rfl

/-- C10 witness: a 3-bar series gives no Fibonacci levels, and a 12-bar
series gives exactly the 7 named levels. -/
theorem find_fibonacci_levels_short_empty_witness :
    find_fibonacci_levels (List.replicate 3 (cBar 1)) "auto" = [] ∧
      (find_fibonacci_levels (List.replicate 12 (cBar 1)) "auto").map Prod.fst =
        ["fib_0.0%", "fib_23.6%", "fib_38.2%", "fib_50.0%", "fib_61.8%",
         "fib_78.6%", "fib_100.0%"] :=
  ⟨(find_fibonacci_levels_short_empty (List.replicate 3 (cBar 1)) "auto").1 (by simp),
   (find_fibonacci_levels_short_empty (List.replicate 12 (cBar 1)) "auto").2 (by simp)⟩

end SupportResistanceAnalyzer

namespace TechnicalIndicators

theorem rsi_ema_ok (close : List ℚ) (n : ℕ) :
    rsi close n "ema" = Except.ok (rsiFromAvgs
      (ewmAdjFalse (1 / (n : ℚ)) (gains close))
      (ewmAdjFalse (1 / (n : ℚ)) (losses close))) := rfl

theorem rsi_sma_ok (close : List ℚ) (n : ℕ) :
    rsi close n "sma" = Except.ok (rsiFromAvgs
      (rollingMean1 n (gains close)) (rollingMean1 n (losses close))) := rfl

theorem rsi_china_ok (close : List ℚ) (n : ℕ) :
    rsi close n "china" = Except.ok (rsiFromAvgs
      (ewmAdjTrue (1 / (n : ℚ)) (gains close))
      (ewmAdjTrue (1 / (n : ℚ)) (losses close))) := rfl

end TechnicalIndicators

theorem getCol_setCol_ne : ∀ (df : DataFrame) (name : String) (v : Column) (m : String),
    ¬(m = name) → getCol (setCol df name v) m = getCol df m := by
  intro df name v
  induction df with
  | nil =>
    intro m hm
    unfold setCol getCol
    rw [if_neg (fun he => hm he.symm)]
    rfl
  | cons p rest ih =>
    intro m hm
    unfold setCol
    by_cases hp : p.1 = name
    · rw [if_pos hp]
      unfold getCol
      rw [if_neg (fun he => hm he.symm), if_neg (by rw [hp]; exact fun he => hm he.symm)]
    · rw [if_neg hp]
      unfold getCol
      by_cases hpm : p.1 = m
      · rw [if_pos hpm, if_pos hpm]
      · rw [if_neg hpm, if_neg hpm]
        exact ih m hm

namespace TechnicalIndicators

/-- C2 (amended): `add_all_indicators` raises exactly when the `close` column
is absent (with the missing-close message); whenever `close` is present the
call succeeds — in particular a frame missing `high` or `low` raises nothing
and KDJ is silently skipped. -/
theorem add_all_indicators_error_iff_close_missing (sqrtFn : ℚ → ℚ) (style : String)
    (df : DataFrame) :
    (getCol df "close" = none →
      add_all_indicators sqrtFn style df = Except.error "DataFrame缺少收盘价列: close") ∧
    (getCol df "close" ≠ none →
      isOkB (add_all_indicators sqrtFn style df) = true) := by
  constructor
  · intro h
    unfold add_all_indicators
    rw [h]
  · intro h
    obtain ⟨c, hc⟩ := Option.ne_none_iff_exists'.mp h
    unfold add_all_indicators
    rw [hc]
    dsimp only
    by_cases hstyle : style = "china"
    · rw [if_pos hstyle, rsi_china_ok, rsi_china_ok, rsi_china_ok, rsi_sma_ok]
      dsimp only
      split <;> rfl
    · rw [if_neg hstyle, rsi_ema_ok]
      dsimp only
      split <;> rfl

end TechnicalIndicators

/-- C2 (counterexample): `dfNoHighLow` has a `close` column but no `high`
column, so per the claim `add_all_indicators` should raise a missing-field
error for KDJ — but the call succeeds. -/
theorem add_all_indicators_counterexample :
    isOkB (TechnicalIndicators.add_all_indicators (fun _ => 0) "international" dfNoHighLow)
        = true ∧
      getCol dfNoHighLow "high" = none := by
  constructor <;> with_unfolding_all rfl

namespace TechnicalIndicators

/-- C8: `add_all_indicators` never changes the `open`, `high`, `low`,
`close` or `volume` columns: whenever it succeeds, each of the five OHLCV
columns of the result equals the corresponding input column (indicator
columns are additive annotations). -/
theorem add_all_indicators_preserves_ohlcv (sqrtFn : ℚ → ℚ) (style : String)
    (df out : DataFrame) (h : add_all_indicators sqrtFn style df = Except.ok out) :
    getCol out "open" = getCol df "open" ∧
    getCol out "high" = getCol df "high" ∧
    getCol out "low" = getCol df "low" ∧
    getCol out "close" = getCol df "close" ∧
    getCol out "volume" = getCol df "volume" := by
  unfold add_all_indicators at h
  cases hc : getCol df "close" with
  | none => rw [hc] at h; exact absurd h (by simp)
  | some c =>
    rw [hc] at h
    dsimp only at h
    by_cases hstyle : style = "china"
    · rw [if_pos hstyle, rsi_china_ok, rsi_china_ok, rsi_china_ok, rsi_sma_ok] at h
      dsimp only at h
      split at h <;>
        (simp only [Except.ok.injEq] at h; subst h;
         refine ⟨?_, ?_, ?_, ?_, ?_⟩ <;> simp [getCol_setCol_ne] <;> exact hc)
    · rw [if_neg hstyle, rsi_ema_ok] at h
      dsimp only at h
      split at h <;>
        (simp only [Except.ok.injEq] at h; subst h;
         refine ⟨?_, ?_, ?_, ?_, ?_⟩ <;> simp [getCol_setCol_ne] <;> exact hc)

end TechnicalIndicators

/-- C8 witness: on the one-bar frame `dfFull` the call succeeds with
`dfFullOut`, whose OHLCV columns coincide with the input ones. -/
theorem add_all_indicators_preserves_ohlcv_witness :
    getCol dfFullOut "open" = getCol dfFull "open" ∧
    getCol dfFullOut "high" = getCol dfFull "high" ∧
    getCol dfFullOut "low" = getCol dfFull "low" ∧
    getCol dfFullOut "close" = getCol dfFull "close" ∧
    getCol dfFullOut "volume" = getCol dfFull "volume" :=
  TechnicalIndicators.add_all_indicators_preserves_ohlcv (fun _ => 0) "international"
    dfFull dfFullOut (by with_unfolding_all rfl)

/-- C2 witness: a frame with only a `high` column raises the missing-close
error, and the full OHLCV frame succeeds (china style included). -/
theorem add_all_indicators_error_iff_close_missing_witness :
    TechnicalIndicators.add_all_indicators (fun _ => 0) "international"
        ([("high", [some 1])] : DataFrame) =
      Except.error "DataFrame缺少收盘价列: close" ∧
    isOkB (TechnicalIndicators.add_all_indicators (fun _ => 0) "china" dfFull) = true :=
  ⟨(TechnicalIndicators.add_all_indicators_error_iff_close_missing (fun _ => 0)
      "international" [("high", [some 1])]).1 (by decide),
   (TechnicalIndicators.add_all_indicators_error_iff_close_missing (fun _ => 0)
      "china" dfFull).2 (by decide)⟩
